import Mathlib

/-!
Verification of the slide-deck content-extraction pipeline
(`src/main.py`, `src/powerpoint_analyzer.py`).

The pipeline is shallowly embedded: PIL images become a `Img` structure
(dimensions plus a pixel function), the per-slide packaging and staging
code becomes explicit functions over lists, and Python exceptions become
`Except` results.  External library behaviour (PIL pixel compositing, the
default bitmap font) is modelled by simple executable functions; the
claims under verification do not depend on the fine detail of those
models (exact glyph shapes, exact alpha rounding), only on dimensions,
positions, and the fact that drawing changes pixels.
-/

set_option autoImplicit false
set_option linter.unusedVariables false

namespace PptToTxt

/-- An RGB pixel: red, green, blue channel values (0..255). -/
abbrev Pixel := Nat × Nat × Nat

/-- Model of an in-memory PIL image: a width, a height, and a pixel
buffer given as a function from coordinates to RGB values. -/
structure Img where
  width : Nat
  height : Nat
  pix : Nat → Nat → Pixel

/-- `Image.new(mode, (w, h), color)`: a constant-colour canvas.
PIL defaults the colour to black when none is given. -/
def imageNew (w h : Nat) (c : Pixel) : Img :=
  ⟨w, h, fun _ _ => c⟩

/-- The colour `'white'`. -/
def white : Pixel := (255, 255, 255)

/-- The colour black, PIL's default fill for `Image.new` without a colour
argument. -/
def black : Pixel := (0, 0, 0)

/-- `dst.paste(src, (x0, y0))` with no mask: pixels inside the pasted
region (clipped to the destination bounds) are replaced by the source's
pixels; all other pixels keep the destination's values. -/
def paste (dst src : Img) (x0 y0 : Nat) : Img :=
  { dst with
    pix := fun x y =>
      if x < dst.width ∧ y < dst.height ∧
          x0 ≤ x ∧ x - x0 < src.width ∧ y0 ≤ y ∧ y - y0 < src.height then
        src.pix (x - x0) (y - y0)
      else dst.pix x y }

/-- Alpha blend of one channel: PIL composites `overlay` over `base`
with mask alpha `a` out of 255 as `(base*(255-a) + overlay*a) / 255`. -/
def blendChan (base overlay a : Nat) : Nat :=
  (base * (255 - a) + overlay * a) / 255

/-- Alpha blend of a whole pixel. -/
def blendPixel (base overlay : Pixel) (a : Nat) : Pixel :=
  (blendChan base.1 overlay.1 a,
   blendChan base.2.1 overlay.2.1 a,
   blendChan base.2.2 overlay.2.2 a)

/-- `img.paste(rect, (x0, y0), rect)` where `rect` is a uniform RGBA
rectangle of size `w × h`, colour `c`, constant alpha `a`: every pixel of
`img` under the rectangle (clipped to `img`'s bounds) is alpha-blended
with `c`. -/
def blendPaste (img : Img) (x0 y0 w h : Nat) (c : Pixel) (a : Nat) : Img :=
  { img with
    pix := fun x y =>
      if x < img.width ∧ y < img.height ∧
          x0 ≤ x ∧ x - x0 < w ∧ y0 ≤ y ∧ y - y0 < h then
        blendPixel (img.pix x y) c a
      else img.pix x y }

/-- Model of the PIL default bitmap font's metrics: every glyph occupies
a 6 × 11 pixel cell, so `draw.textbbox((0,0), t, font)` returns
`(0, 0, 6*len(t), 11)`.  The claims depend only on the box being some
fixed positive size, not on the exact numbers. -/
def textWidth (t : String) : Nat := 6 * t.length

/-- Height of the modelled default font's text bounding box. -/
def textHeight : Nat := 11

/-- Model of `draw.text((x0, y0), t, fill)`: the rendered text changes
pixels only inside the text's bounding box placed at `(x0, y0)`; we model
the glyph coverage as the full box painted with the fill colour (the
claims do not depend on glyph shapes). -/
def drawText (img : Img) (x0 y0 : Nat) (t : String) (fill : Pixel) : Img :=
  { img with
    pix := fun x y =>
      if x < img.width ∧ y < img.height ∧
          x0 ≤ x ∧ x - x0 < textWidth t ∧ y0 ≤ y ∧ y - y0 < textHeight then
        fill
      else img.pix x y }

/-- The pixel buffer produced by the enabled branch of
`add_id_to_image` (src/powerpoint_analyzer.py lines 130-143,
src/main.py lines 87-100): compute the text bounding box of `id_text`
in the default font, alpha-paste a black rectangle of size
`(text_width + 20, text_height + 20)` with alpha 128 at position
`(10, 10)`, then draw `id_text` in white inset 10 further pixels, i.e.
at `(20, 20)`. -/
def drawLabel (img : Img) (id_text : String) : Img :=
  let tw := textWidth id_text
  let th := textHeight
  let bg := blendPaste img 10 10 (tw + 20) (th + 20) black 128
  drawText bg 20 20 id_text white

/-- Embedding of `add_id_to_image(img, id_text)` (a closure over the
`add_labels` flag; src/powerpoint_analyzer.py lines 127-143, identical in
src/main.py lines 84-100).  The Python body draws on `img` in place
(`ImageDraw.Draw(img)`, `img.paste`, `draw.text`) and returns that same
object, so we return a pair: the first component is the returned value,
the second is the buffer of the caller's argument object after the call.
With labels disabled the input is returned untouched; with labels enabled
the argument object itself is mutated to the labelled buffer and
returned. -/
def add_id_to_image : Bool → Img → String → Img × Img
  | false, img, _ => (img, img)
  | true, img, id_text =>
      let labeled := drawLabel img id_text
      (labeled, labeled)

/-- The orchestrator's per-image labeling step
(src/powerpoint_analyzer.py line 160, src/main.py line 115):
`img_with_id = add_id_to_image(img.copy(), id_text)`.  The callee
receives a fresh copy of `img`, so whatever it draws lands on the copy;
the pair returned here is (the labelled result, the buffer of the
caller's original `img` object after the step). -/
def labelStep (add_labels : Bool) (img : Img) (id_text : String) : Img × Img :=
  ((add_id_to_image add_labels img id_text).1, img)

/-- Sum of the widths of a list of images (`total_width = sum(widths)`). -/
def sumWidths (imgs : List Img) : Nat :=
  (imgs.map Img.width).sum

/-- Maximum of the heights of a list of images
(`max_height = max(heights)`; the list is non-empty whenever this is
evaluated, so folding from 0 agrees with Python's `max`). -/
def maxHeight (imgs : List Img) : Nat :=
  (imgs.map Img.height).foldr Nat.max 0

/-- The paste loop of the combine block: paste each image in turn at the
running x-offset, top edge at y = 0, advancing the offset by the pasted
image's width. -/
def pasteAll (canvas : Img) (x0 : Nat) : List Img → Img
  | [] => canvas
  | img :: rest => pasteAll (paste canvas img x0 0) (x0 + img.width) rest

/-- The composite image built by the combine block for a (non-empty)
list of processed images (src/powerpoint_analyzer.py lines 183-190,
src/main.py lines 126-133): a black canvas of size
`(total_width, max_height)` with each image pasted left-to-right. -/
def combinedImg (imgs : List Img) : Img :=
  pasteAll (imageNew (sumWidths imgs) (maxHeight imgs) black) 0 imgs

/-- The combine block as executed (src/powerpoint_analyzer.py lines
182-190): `widths, heights = zip(*(i.size for i in processed_imgs))`
unpacks the transposed size list into two variables; on an empty
`processed_imgs` the `zip` yields nothing and the unpacking raises
`ValueError`, which we model as an `Except.error`. -/
def combineImages (imgs : List Img) : Except String Img :=
  if imgs.isEmpty then
    .error "ValueError: not enough values to unpack (expected 2, got 0)"
  else
    .ok (combinedImg imgs)

/-- Python's `l[-2:]`: the last two elements (the whole list when it has
fewer than two). -/
def lastTwo {α : Type} (l : List α) : List α :=
  l.drop (l.length - 2)

/-- The per-slide packaging of src/powerpoint_analyzer.py, lines 157-196,
viewed at the level of the transmitted image set.  `processed` is the
slide's list of labelled per-image units (in shape order) and
`labeledSnapshot` its labelled snapshot.  The upload loop produces
`ai_files = processed ++ [snapshot]` (per-image uploads in order, then
the snapshot upload); when `combine` is set the combine block builds the
composite from `processed` and replaces the list by
`[upload(combined)] + ai_files[-2:]`. -/
def packageSlide (combine : Bool) (processed : List Img)
    (labeledSnapshot : Img) : Except String (List Img) :=
  let ai_files := processed ++ [labeledSnapshot]
  if combine then
    match combineImages processed with
    | .error e => .error e
    | .ok comb => .ok (comb :: lastTwo ai_files)
  else
    .ok ai_files

/-! ### Slides, shapes and extraction -/

/-- Model of a python-pptx shape as the two extraction functions see it:
whether it exposes a `text` attribute and that text, its `shape_type`
code, its decoded embedded bitmap (meaningful only for picture shapes),
and its declared geometry in EMU (English Metric Units, the deck's
physical unit; 914400 EMU per inch). -/
structure Shape where
  hasText : Bool
  text : String
  shape_type : Nat
  image : Img
  leftEmu : Nat
  topEmu : Nat
  widthEmu : Nat
  heightEmu : Nat

/-- `MSO_SHAPE_TYPE.PICTURE`, the python-pptx enum member used by
src/powerpoint_analyzer.py; its integer value is 13. -/
def MSO_SHAPE_TYPE_PICTURE : Nat := 13

/-- The shape loop shared by both extraction variants, as written in
src/main.py lines 74-81: accumulate `shape.text + "\n"` for every
text-bearing shape and the decoded bitmap of every shape whose type
equals 13, in a single pass in shape order. -/
def extractLoopMain : List Shape → String × List Img
  | [] => ("", [])
  | s :: rest =>
      let r := extractLoopMain rest
      ((if s.hasText then s.text ++ "\n" else "") ++ r.1,
       (if s.shape_type = 13 then [s.image] else []) ++ r.2)

/-- `extract_slide_content(slide)` of src/main.py lines 71-82: the
concatenated text stripped of surrounding whitespace, plus the ordered
list of decoded embedded images. -/
def extract_slide_content_main (slide : List Shape) : String × List Img :=
  let r := extractLoopMain slide
  (r.1.trim, r.2)

/-- The shape loop of src/powerpoint_analyzer.py lines 78-85: identical
pass, except that the picture test is written
`shape.shape_type == MSO_SHAPE_TYPE.PICTURE`. -/
def extractLoopAnalyzer : List Shape → String × List Img
  | [] => ("", [])
  | s :: rest =>
      let r := extractLoopAnalyzer rest
      ((if s.hasText then s.text ++ "\n" else "") ++ r.1,
       (if s.shape_type = MSO_SHAPE_TYPE_PICTURE then [s.image] else []) ++ r.2)

/-- Conversion of a length in EMU to the number of inches as an exact
rational: python-pptx's `.inches` accessor divides by 914400. -/
def emuToInches (emu : Nat) : ℚ :=
  (emu : ℚ) / 914400

/-- `int(length.inches * 96)` (src/powerpoint_analyzer.py lines 95-96,
106-109): convert EMU to inches, multiply by 96 pixels per inch, and
truncate to an integer.  The quantity is non-negative, so Python's
`int` truncation is the floor. -/
def emuToPx (emu : Nat) : Nat :=
  emu * 96 / 914400

/-- `img.resize((w, h))`: the resized bitmap has exactly the requested
dimensions; the resampled pixel content is modelled by nearest-neighbour
lookup (the claims depend only on the dimensions). -/
def resize (img : Img) (w h : Nat) : Img :=
  ⟨w, h, fun x y =>
    if img.width = 0 ∨ img.height = 0 then black
    else img.pix (x * img.width / w) (y * img.height / h)⟩

/-- One iteration of the snapshot shape loop
(src/powerpoint_analyzer.py lines 102-118): a picture shape is decoded,
resized to its declared pixel box and pasted at its declared pixel
position; otherwise a text-bearing shape has its text drawn in black at
its declared pixel position; any other shape is skipped. -/
def renderShape (canvas : Img) (s : Shape) : Img :=
  if s.shape_type = MSO_SHAPE_TYPE_PICTURE then
    paste canvas
      (resize s.image (emuToPx s.widthEmu) (emuToPx s.heightEmu))
      (emuToPx s.leftEmu) (emuToPx s.topEmu)
  else if s.hasText then
    drawText canvas (emuToPx s.leftEmu) (emuToPx s.topEmu) s.text black
  else
    canvas

/-- `generate_slide_snapshot(slide)` (src/powerpoint_analyzer.py lines
92-120): read the presentation's slide width and height (EMU), convert
to pixels at 96 px/inch with integer truncation, allocate a white canvas
of that size, then render each shape onto it in document order. -/
def generate_slide_snapshot (prsWidthEmu prsHeightEmu : Nat)
    (slide : List Shape) : Img :=
  let slide_width := emuToPx prsWidthEmu
  let slide_height := emuToPx prsHeightEmu
  let slide_image := imageNew slide_width slide_height white
  slide.foldl renderShape slide_image

/-- `extract_slide_content(slide, slide_index)` of
src/powerpoint_analyzer.py lines 74-90: text and images exactly as the
shape loop produces them, plus the rendered full-slide snapshot. -/
def extract_slide_content_analyzer (prsWidthEmu prsHeightEmu : Nat)
    (slide : List Shape) : String × List Img × Img :=
  let r := extractLoopAnalyzer slide
  (r.1.trim, r.2, generate_slide_snapshot prsWidthEmu prsHeightEmu slide)

/-! ### Identifiers -/

/-- Big-endian decimal digits of `n`, computed with explicit fuel
(structural recursion so that concrete identifiers evaluate inside
`decide`).  With fuel at least `n + 1` the fuel never runs out. -/
def decAux : Nat → Nat → List Nat
  | 0, _ => []
  | fuel + 1, n => if n < 10 then [n] else decAux fuel (n / 10) ++ [n % 10]

/-- Big-endian decimal digits of `n`. -/
def decDigits (n : Nat) : List Nat := decAux (n + 1) n

/-- Model of Python's decimal formatting of a non-negative integer
inside an f-string: its decimal digits as characters. -/
def decRepr (n : Nat) : String :=
  ⟨(decDigits n).map Nat.digitChar⟩

/-- The identifier the pipeline assigns to the picture at 0-based index
`idx` of the 0-based slide `i`:
`id_text = f"IMG_{i+1}_{idx+1}"` (src/powerpoint_analyzer.py line 159,
src/main.py line 114). -/
def imgId (i idx : Nat) : String :=
  "IMG_" ++ decRepr (i + 1) ++ "_" ++ decRepr (idx + 1)

/-- The identifier assigned to a slide's snapshot:
`snapshot_id = f"snapshot_{i+idx+1}"` where `idx` enumerates the
one-element list `[snapshot1]` (src/powerpoint_analyzer.py lines
171-172), so effectively `snapshot_{i+1}`. -/
def snapshotId (i idx : Nat) : String :=
  "snapshot_" ++ decRepr (i + idx + 1)

/-- The ordered list of per-image identifiers a run assigns on slide `i`
when that slide has `n` embedded pictures (`for idx, img in
enumerate(combined_images)`). -/
def slideImageIds (i n : Nat) : List String :=
  (List.range n).map (imgId i)

/-- The list of snapshot identifiers assigned on slide `i`
(`for idx, snapshot in enumerate([snapshot1])`). -/
def slideSnapshotIds (i : Nat) : List String :=
  (List.range 1).map (snapshotId i)

/-! ### The orchestrator's slide loops -/

/-- The slide indices processed by `analyze_powerpoint` in
src/powerpoint_analyzer.py: the loop is the hard-coded `for i in
range(2)` (line 145), the full-deck loop
`for i in range(len(prs.slides))` being commented out (line 146). -/
def processedSlidesAnalyzer (nSlides : Nat) : List Nat :=
  List.range 2

/-- The slide indices processed by `analyze_powerpoint` in src/main.py:
`for i in range(len(prs.slides) - 1)` (line 101). -/
def processedSlidesMain (nSlides : Nat) : List Nat :=
  List.range (nSlides - 1)

/-- The run's result list: one analysis result is appended per processed
slide, in loop order (`results.append(result)`), with `analyze i` the
text the Content Analysis Service returns for slide `i`. -/
def runResults (processed : List Nat) (analyze : Nat → String) : List String :=
  processed.map analyze

/-! ### Staging and temporary files

The staging steps of src/powerpoint_analyzer.py lines 157-196 interact
with the filesystem (`img.save`, `os.remove`) and the upload call, which
may raise.  We model the world as a `StageState` (the set of files on
disk, the accumulated `ai_files` upload handles — identified by the path
they were uploaded from — and the number of upload calls made so far),
uploads as an oracle giving each successive call's outcome, and a raised
exception as an `Except.error` carrying the world state at the raise
point. -/

/-- The world state threaded through a slide's staging steps. -/
structure StageState where
  disk : List String
  handles : List String
  calls : Nat
  deriving DecidableEq

/-- `img.save(path)`: the file now exists on disk (overwriting any
previous file of that name). -/
def saveFile (path : String) (s : StageState) : StageState :=
  { s with disk := if path ∈ s.disk then s.disk else s.disk ++ [path] }

/-- One staged unit (src/powerpoint_analyzer.py lines 163-168 for a
per-image unit, lines 175-180 for the snapshot): save the PNG, call
`upload_file` (which may raise — outcome given by the oracle at the
current call index), append the returned handle to `ai_files`, and
`os.remove` the PNG.  When the upload raises, the exception propagates
before the `os.remove` line runs, so the file stays on disk. -/
def stageOne (oracle : Nat → Bool) (path : String) (s : StageState) :
    Except StageState StageState :=
  let s1 := saveFile path s
  if oracle s1.calls then
    let s2 := { s1 with calls := s1.calls + 1, handles := s1.handles ++ [path] }
    .ok { s2 with disk := s2.disk.erase path }
  else
    .error { s1 with calls := s1.calls + 1 }

/-- The per-image staging loop, in order (a raised exception aborts the
rest of the loop). -/
def stageAll (oracle : Nat → Bool) : List String → StageState →
    Except StageState StageState
  | [], s => .ok s
  | path :: rest, s =>
      match stageOne oracle path s with
      | .error e => .error e
      | .ok s1 => stageAll oracle rest s1

/-- The temporary PNG paths of slide `i`'s per-image units:
`f"temp_image_{i+1}_{idx+1}.png"`. -/
def imgPaths (i n : Nat) : List String :=
  (List.range n).map fun idx =>
    "temp_image_" ++ decRepr (i + 1) ++ "_" ++ decRepr (idx + 1) ++ ".png"

/-- The combine block's staging (src/powerpoint_analyzer.py lines
182-196): with no processed images the `zip` unpacking raises
`ValueError` before any file is created; otherwise the composite is
saved to `f"combined_image_{i}.png"`, uploaded (the handle list becoming
`[combined] + ai_files[-2:]`), and removed — again, an upload failure
propagates before the `os.remove`. -/
def stageCombined (oracle : Nat → Bool) (i nImgs : Nat) (s : StageState) :
    Except StageState StageState :=
  if nImgs = 0 then
    .error s
  else
    let path := "combined_image_" ++ decRepr i ++ ".png"
    let s1 := saveFile path s
    if oracle s1.calls then
      let s2 := { s1 with calls := s1.calls + 1,
                          handles := [path] ++ lastTwo s1.handles }
      .ok { s2 with disk := s2.disk.erase path }
    else
      .error { s1 with calls := s1.calls + 1 }

/-- The whole staging portion of one slide's pipeline
(src/powerpoint_analyzer.py lines 157-196): stage each per-image unit,
then the snapshot (path `f"{snapshot_id}.png"`), then — when combining —
the composite. -/
def stageSlide (oracle : Nat → Bool) (combine : Bool) (i nImgs : Nat)
    (s : StageState) : Except StageState StageState :=
  match stageAll oracle (imgPaths i nImgs) s with
  | .error e => .error e
  | .ok s1 =>
      match stageOne oracle (snapshotId i 0 ++ ".png") s1 with
      | .error e => .error e
      | .ok s2 => if combine then stageCombined oracle i nImgs s2 else .ok s2

/-- The world state when the slide's pipeline ends, whether it returned
normally or raised. -/
def resultState (r : Except StageState StageState) : StageState :=
  match r with
  | .ok s => s
  | .error s => s

/-- An upload oracle under which every staging call succeeds. -/
def oracleOk : Nat → Bool := fun _ => true

/-- An upload oracle under which the first staging call fails. -/
def oracleFirstFails : Nat → Bool := fun _ => false

/-! ### Identifier lists assigned across a run -/

/-- All identifiers a run assigns, in assignment order: for each
processed slide index `i` (with `nImg i` embedded pictures on slide
`i`), the per-image identifiers followed by the snapshot identifier. -/
def runAssignedIds (processed : List Nat) (nImg : Nat → Nat) : List String :=
  processed.flatMap fun i => slideImageIds i (nImg i) ++ slideSnapshotIds i

/-! ### Concrete sample images used by witnesses and counterexamples -/

/-- A 3 × 2 white sample unit. -/
def imgA : Img := imageNew 3 2 white

/-- A 2 × 5 black sample unit. -/
def imgB : Img := imageNew 2 5 black

/-- A 5 × 5 white sample snapshot. -/
def snap0 : Img := imageNew 5 5 white

/-- A 40 × 40 all-white sample unit. -/
def u0 : Img := imageNew 40 40 white

/-- A sample two-unit list. -/
def l0c : List Img := [imgA, imgB]

/-- Default image used with `List.getD` when indexing unit lists. -/
def defaultImg : Img := imageNew 0 0 black

/-! ### Supporting lemmas -/

/-- The two extraction shape loops (src/main.py lines 74-81 and
src/powerpoint_analyzer.py lines 78-85) compute the same text and image
list: the only textual difference between them is writing the picture
test as `13` versus `MSO_SHAPE_TYPE.PICTURE`, which is the value 13. -/
theorem extractLoop_eq (slide : List Shape) :
    extractLoopAnalyzer slide = extractLoopMain slide := by
  induction slide with
  | nil => rfl
  | cons s rest ih =>
      simp [extractLoopAnalyzer, extractLoopMain, MSO_SHAPE_TYPE_PICTURE, ih]

/-- Rendering one shape onto the snapshot canvas does not change the
canvas width. -/
theorem renderShape_width (c : Img) (s : Shape) :
    (renderShape c s).width = c.width := by
  unfold renderShape
  split_ifs <;> rfl

/-- Rendering one shape onto the snapshot canvas does not change the
canvas height. -/
theorem renderShape_height (c : Img) (s : Shape) :
    (renderShape c s).height = c.height := by
  unfold renderShape
  split_ifs <;> rfl

/-- The snapshot shape loop keeps the canvas width. -/
theorem foldl_renderShape_width (slide : List Shape) (c : Img) :
    (slide.foldl renderShape c).width = c.width := by
  induction slide generalizing c with
  | nil => rfl
  | cons s rest ih => rw [List.foldl_cons, ih, renderShape_width]

/-- The snapshot shape loop keeps the canvas height. -/
theorem foldl_renderShape_height (slide : List Shape) (c : Img) :
    (slide.foldl renderShape c).height = c.height := by
  induction slide generalizing c with
  | nil => rfl
  | cons s rest ih => rw [List.foldl_cons, ih, renderShape_height]

/-- `int(emu.inches * 96)` equals the floor of the exact rational
`inches * 96`. -/
theorem emuToPx_floor (e : Nat) : emuToPx e = ⌊emuToInches e * 96⌋₊ := by
  unfold emuToPx emuToInches
  have h : (e : ℚ) / 914400 * 96 = ((e * 96 : ℕ) : ℚ) / ((914400 : ℕ) : ℚ) := by
    push_cast
    ring
  rw [h, Nat.floor_div_nat, Nat.floor_natCast]

/-- `sumWidths` on a cons cell. -/
theorem sumWidths_cons (a : Img) (l : List Img) :
    sumWidths (a :: l) = a.width + sumWidths l := by
  simp [sumWidths]

/-- `maxHeight` on a cons cell. -/
theorem maxHeight_cons (a : Img) (l : List Img) :
    maxHeight (a :: l) = max a.height (maxHeight l) := by
  simp [maxHeight]

/-- The paste loop keeps the canvas width. -/
theorem pasteAll_width (l : List Img) :
    ∀ (canvas : Img) (x0 : Nat), (pasteAll canvas x0 l).width = canvas.width := by
  induction l with
  | nil => intro canvas x0; rfl
  | cons img rest ih => intro canvas x0; exact ih (paste canvas img x0 0) _

/-- The paste loop keeps the canvas height. -/
theorem pasteAll_height (l : List Img) :
    ∀ (canvas : Img) (x0 : Nat), (pasteAll canvas x0 l).height = canvas.height := by
  induction l with
  | nil => intro canvas x0; rfl
  | cons img rest ih => intro canvas x0; exact ih (paste canvas img x0 0) _

/-- Pastes performed at offsets at least `x0` never touch a pixel in a
column left of `x0`. -/
theorem pasteAll_pix_left (l : List Img) :
    ∀ (canvas : Img) (x0 x y : Nat), x < x0 →
      (pasteAll canvas x0 l).pix x y = canvas.pix x y := by
  induction l with
  | nil => intro canvas x0 x y h; rfl
  | cons img rest ih =>
      intro canvas x0 x y h
      rw [show pasteAll canvas x0 (img :: rest)
            = pasteAll (paste canvas img x0 0) (x0 + img.width) rest from rfl,
          ih _ _ _ _ (Nat.lt_of_lt_of_le h (Nat.le_add_right x0 img.width))]
      simp only [paste]
      rw [if_neg]
      rintro ⟨-, -, h3, -⟩
      exact absurd h3 (Nat.not_le.mpr h)

/-- The widths of the units before position `k`, plus unit `k`'s own
width, fit inside the total width. -/
theorem sumWidths_take_getD (l : List Img) :
    ∀ k : Nat, k < l.length →
      sumWidths (l.take k) + (l.getD k defaultImg).width ≤ sumWidths l := by
  induction l with
  | nil => intro k hk; exact absurd hk (Nat.not_lt_zero k)
  | cons a rest ih =>
      intro k hk
      cases k with
      | zero => simp [sumWidths_cons, sumWidths]
      | succ j =>
          have hj : j < rest.length := Nat.lt_of_succ_lt_succ hk
          have := ih j hj
          simp only [List.take_succ_cons, sumWidths_cons, List.getD_cons_succ]
          omega

/-- Every unit's height is at most the folded maximum height. -/
theorem height_le_maxHeight (l : List Img) :
    ∀ k : Nat, k < l.length →
      (l.getD k defaultImg).height ≤ maxHeight l := by
  induction l with
  | nil => intro k hk; exact absurd hk (Nat.not_lt_zero k)
  | cons a rest ih =>
      intro k hk
      cases k with
      | zero => simp [maxHeight_cons]
      | succ j =>
          have hj : j < rest.length := Nat.lt_of_succ_lt_succ hk
          calc (rest.getD j defaultImg).height ≤ maxHeight rest := ih j hj
            _ ≤ max a.height (maxHeight rest) := Nat.le_max_right _ _
            _ = maxHeight (a :: rest) := (maxHeight_cons a rest).symm

/-- After the paste loop, the pixel at column
`x0 + (widths of the units before position k) + dx`, row `dy`, holds
unit `k`'s pixel `(dx, dy)`, provided the coordinates fall inside unit
`k` and inside the canvas. -/
theorem pasteAll_pix (l : List Img) :
    ∀ (canvas : Img) (x0 k dx dy : Nat), k < l.length →
      dx < (l.getD k defaultImg).width →
      dy < (l.getD k defaultImg).height →
      x0 + sumWidths (l.take k) + dx < canvas.width →
      dy < canvas.height →
      (pasteAll canvas x0 l).pix (x0 + sumWidths (l.take k) + dx) dy
        = (l.getD k defaultImg).pix dx dy := by
  induction l with
  | nil => intro canvas x0 k dx dy hk; exact absurd hk (Nat.not_lt_zero k)
  | cons img rest ih =>
      intro canvas x0 k dx dy hk hdx hdy hxb hyb
      cases k with
      | zero =>
          simp only [List.getD_cons_zero] at hdx hdy ⊢
          simp only [List.take_zero, sumWidths, List.map_nil, List.sum_nil,
            Nat.add_zero] at hxb ⊢
          rw [show pasteAll canvas x0 (img :: rest)
                = pasteAll (paste canvas img x0 0) (x0 + img.width) rest from rfl,
              pasteAll_pix_left rest _ _ _ _ (by omega)]
          simp only [paste]
          rw [if_pos]
          · rw [Nat.add_sub_cancel_left, Nat.sub_zero]
          · refine ⟨hxb, hyb, Nat.le_add_right x0 dx, by omega, Nat.zero_le dy, by omega⟩
      | succ j =>
          have hj : j < rest.length := Nat.lt_of_succ_lt_succ hk
          simp only [List.getD_cons_succ] at hdx hdy ⊢
          simp only [List.take_succ_cons, sumWidths_cons] at hxb ⊢
          rw [show pasteAll canvas x0 (img :: rest)
                = pasteAll (paste canvas img x0 0) (x0 + img.width) rest from rfl]
          have hcw : (paste canvas img x0 0).width = canvas.width := rfl
          have hch : (paste canvas img x0 0).height = canvas.height := rfl
          have := ih (paste canvas img x0 0) (x0 + img.width) j dx dy hj hdx hdy
            (by rw [hcw]; omega) (by rw [hch]; omega)
          rw [show x0 + (img.width + sumWidths (rest.take j)) + dx
                = x0 + img.width + sumWidths (rest.take j) + dx by omega]
          exact this

/-- Value of a big-endian digit list. -/
def decVal (l : List Nat) : Nat :=
  l.foldl (fun a d => 10 * a + d) 0

/-- Appending one digit multiplies the value by ten and adds the
digit. -/
theorem decVal_append (l : List Nat) (d : Nat) :
    decVal (l ++ [d]) = 10 * decVal l + d := by
  simp [decVal, List.foldl_append]

/-- `decAux` renders the value it was given, as long as the fuel
bounds it. -/
theorem decAux_val : ∀ fuel n : Nat, n < 10 ^ fuel →
    decVal (decAux fuel n) = n := by
  intro fuel
  induction fuel with
  | zero =>
      intro n hn
      have hn0 : n = 0 := by simpa using Nat.lt_one_iff.mp (by simpa using hn)
      subst hn0
      rfl
  | succ f ih =>
      intro n hn
      unfold decAux
      by_cases h10 : n < 10
      · rw [if_pos h10]
        simp [decVal]
      · rw [if_neg h10, decVal_append, ih (n / 10) ?_]
        · omega
        · rw [pow_succ] at hn
          exact Nat.div_lt_of_lt_mul (by omega)

/-- The decimal digit list of `n` evaluates back to `n`. -/
theorem decDigits_val (n : Nat) : decVal (decDigits n) = n :=
  decAux_val (n + 1) n
    (Nat.lt_of_lt_of_le (Nat.lt_pow_self (by norm_num) n)
      (Nat.pow_le_pow_right (by norm_num) (Nat.le_succ n)))

/-- Decimal digit lists determine the number. -/
theorem decDigits_injective : Function.Injective decDigits := by
  intro a b h
  have ha := decDigits_val a
  rw [h, decDigits_val] at ha
  exact ha.symm

/-- Every digit `decAux` produces is below ten. -/
theorem decAux_digits_lt : ∀ fuel n : Nat, ∀ d ∈ decAux fuel n, d < 10 := by
  intro fuel
  induction fuel with
  | zero => intro n d hd; simp [decAux] at hd
  | succ f ih =>
      intro n d hd
      unfold decAux at hd
      by_cases h10 : n < 10
      · rw [if_pos h10] at hd
        simp at hd
        omega
      · rw [if_neg h10] at hd
        rcases List.mem_append.mp hd with h | h
        · exact ih _ _ h
        · simp at h
          omega

/-- Every digit of a decimal digit list is below ten. -/
theorem decDigits_lt (n : Nat) : ∀ d ∈ decDigits n, d < 10 :=
  decAux_digits_lt (n + 1) n

/-- `Nat.digitChar` is injective on decimal digits. -/
theorem digitChar_inj : ∀ d1 : Nat, d1 < 10 → ∀ d2 : Nat, d2 < 10 →
    Nat.digitChar d1 = Nat.digitChar d2 → d1 = d2 := by
  decide

/-- No decimal digit renders as an underscore. -/
theorem digitChar_ne_underscore : ∀ d : Nat, d < 10 →
    Nat.digitChar d ≠ '_' := by
  decide

/-- Mapping `Nat.digitChar` over digit lists is injective. -/
theorem map_digitChar_inj : ∀ l1 l2 : List Nat,
    (∀ d ∈ l1, d < 10) → (∀ d ∈ l2, d < 10) →
    l1.map Nat.digitChar = l2.map Nat.digitChar → l1 = l2 := by
  intro l1
  induction l1 with
  | nil =>
      intro l2 _ _ h
      cases l2 with
      | nil => rfl
      | cons b t2 => simp at h
  | cons a t ih =>
      intro l2 h1 h2 h
      cases l2 with
      | nil => simp at h
      | cons b t2 =>
          simp only [List.map_cons, List.cons.injEq] at h
          have hab : a = b :=
            digitChar_inj a (h1 a (List.mem_cons_self a t)) b
              (h2 b (List.mem_cons_self b t2)) h.1
          have ht : t = t2 :=
            ih t2 (fun d hd => h1 d (List.mem_cons_of_mem a hd))
              (fun d hd => h2 d (List.mem_cons_of_mem b hd)) h.2
          rw [hab, ht]

/-- The modelled decimal rendering is injective. -/
theorem decRepr_injective : Function.Injective decRepr := by
  intro a b h
  have hd := congrArg String.data h
  simp only [decRepr] at hd
  exact decDigits_injective (map_digitChar_inj _ _ (decDigits_lt a) (decDigits_lt b) hd)

/-- A decimal rendering never contains an underscore. -/
theorem underscore_not_mem_decRepr (n : Nat) : '_' ∉ (decRepr n).data := by
  intro h
  simp only [decRepr] at h
  rcases List.mem_map.mp h with ⟨d, hd, heq⟩
  exact digitChar_ne_underscore d (decDigits_lt n d hd) heq

/-- Splitting a character list at a separator that occurs in neither
prefix is unambiguous. -/
theorem append_underscore_inj : ∀ a c b d : List Char,
    '_' ∉ a → '_' ∉ c → a ++ '_' :: b = c ++ '_' :: d → a = c ∧ b = d := by
  intro a
  induction a with
  | nil =>
      intro c b d _ hc h
      cases c with
      | nil =>
          simp only [List.nil_append, List.cons.injEq] at h
          exact ⟨rfl, h.2⟩
      | cons y ys =>
          simp only [List.nil_append, List.cons_append, List.cons.injEq] at h
          exact absurd (h.1 ▸ List.mem_cons_self y ys) hc
  | cons x xs ih =>
      intro c b d ha hc h
      cases c with
      | nil =>
          simp only [List.cons_append, List.nil_append, List.cons.injEq] at h
          exact absurd (h.1.symm ▸ List.mem_cons_self x xs) ha
      | cons y ys =>
          simp only [List.cons_append, List.cons.injEq] at h
          have hxy := h.1
          have := ih ys b d (fun hm => ha (List.mem_cons_of_mem x hm))
            (fun hm => hc (List.mem_cons_of_mem y hm)) h.2
          exact ⟨by rw [hxy, this.1], this.2⟩

/-- The character data of a per-image identifier. -/
theorem imgId_data (i k : Nat) :
    (imgId i k).data
      = 'I' :: 'M' :: 'G' :: '_' ::
          ((decDigits (i + 1)).map Nat.digitChar
            ++ '_' :: (decDigits (k + 1)).map Nat.digitChar) := by
  simp [imgId, decRepr, String.data_append]

/-- The character data of a snapshot identifier. -/
theorem snapshotId_data (i a : Nat) :
    (snapshotId i a).data
      = 's' :: 'n' :: 'a' :: 'p' :: 's' :: 'h' :: 'o' :: 't' :: '_' ::
          (decDigits (i + a + 1)).map Nat.digitChar := by
  simp [snapshotId, decRepr, String.data_append]

/-- A per-image identifier determines its slide index and ordinal. -/
theorem imgId_inj (i k j l : Nat) : imgId i k = imgId j l → i = j ∧ k = l := by
  intro h
  have hd := congrArg String.data h
  rw [imgId_data, imgId_data] at hd
  simp only [List.cons.injEq, true_and] at hd
  have := append_underscore_inj _ _ _ _
    (by
      intro hm
      rcases List.mem_map.mp hm with ⟨d, hdm, heq⟩
      exact digitChar_ne_underscore d (decDigits_lt (i + 1) d hdm) heq)
    (by
      intro hm
      rcases List.mem_map.mp hm with ⟨d, hdm, heq⟩
      exact digitChar_ne_underscore d (decDigits_lt (j + 1) d hdm) heq)
    hd
  have hi : i + 1 = j + 1 :=
    decDigits_injective (map_digitChar_inj _ _ (decDigits_lt (i + 1))
      (decDigits_lt (j + 1)) this.1)
  have hk : k + 1 = l + 1 :=
    decDigits_injective (map_digitChar_inj _ _ (decDigits_lt (k + 1))
      (decDigits_lt (l + 1)) this.2)
  omega

/-- A snapshot identifier determines the sum of its slide index and
enumeration index. -/
theorem snapshotId_inj (i a j b : Nat) :
    snapshotId i a = snapshotId j b → i + a = j + b := by
  intro h
  have hd := congrArg String.data h
  rw [snapshotId_data, snapshotId_data] at hd
  simp only [List.cons.injEq, true_and] at hd
  have : i + a + 1 = j + b + 1 :=
    decDigits_injective (map_digitChar_inj _ _ (decDigits_lt (i + a + 1))
      (decDigits_lt (j + b + 1)) hd)
  omega

/-- Image identifiers and snapshot identifiers never collide. -/
theorem imgId_ne_snapshotId (i k j b : Nat) : imgId i k ≠ snapshotId j b := by
  intro h
  have hd := congrArg String.data h
  rw [imgId_data, snapshotId_data] at hd
  simp at hd

/-- The ordered per-image identifier list of one slide reads off the
identifier formula at each position. -/
theorem slideImageIds_getD (i n k : Nat) (hk : k < n) :
    (slideImageIds i n).getD k ""
      = "IMG_" ++ decRepr (i + 1) ++ "_" ++ decRepr (k + 1) := by
  unfold slideImageIds
  have hk' : k < ((List.range n).map (imgId i)).length := by
    simpa using hk
  rw [List.getD_eq_getElem _ _ hk']
  simp [imgId]

/-- One slide's identifier block (per-image identifiers then the
snapshot identifier) contains no duplicate. -/
theorem slideBlock_nodup (i : Nat) (n : Nat) :
    (slideImageIds i n ++ slideSnapshotIds i).Nodup := by
  apply List.Nodup.append
  · exact List.Nodup.map (fun a b h => (imgId_inj i a i b h).2) (List.nodup_range n)
  · unfold slideSnapshotIds
    exact List.nodup_singleton _
  · intro a ha hb
    unfold slideImageIds at ha
    unfold slideSnapshotIds at hb
    rcases List.mem_map.mp ha with ⟨k, -, rfl⟩
    rcases List.mem_map.mp hb with ⟨b, -, heq⟩
    exact imgId_ne_snapshotId i k i b heq.symm

/-- Identifier blocks of distinct slides are disjoint. -/
theorem slideBlock_disjoint (i j : Nat) (hne : i ≠ j) (n m : Nat) :
    List.Disjoint (slideImageIds i n ++ slideSnapshotIds i)
      (slideImageIds j m ++ slideSnapshotIds j) := by
  intro a hai haj
  rcases List.mem_append.mp hai with h1 | h1 <;>
    rcases List.mem_append.mp haj with h2 | h2
  · rcases List.mem_map.mp h1 with ⟨k, -, rfl⟩
    rcases List.mem_map.mp h2 with ⟨l, -, heq⟩
    exact hne (imgId_inj j l i k heq).1.symm
  · rcases List.mem_map.mp h1 with ⟨k, -, rfl⟩
    rcases List.mem_map.mp h2 with ⟨b, -, heq⟩
    exact imgId_ne_snapshotId i k j b heq.symm
  · rcases List.mem_map.mp h1 with ⟨b, -, rfl⟩
    rcases List.mem_map.mp h2 with ⟨l, -, heq⟩
    exact imgId_ne_snapshotId j l i b heq
  · rcases List.mem_map.mp h1 with ⟨b1, hb1, rfl⟩
    rcases List.mem_map.mp h2 with ⟨b2, hb2, heq⟩
    have hb1' : b1 = 0 := by simpa using hb1
    have hb2' : b2 = 0 := by simpa using hb2
    subst hb1'
    subst hb2'
    have := snapshotId_inj j 0 i 0 heq
    omega

/-- All identifiers a run assigns over distinct slide indices are
pairwise distinct. -/
theorem runAssignedIds_nodup (processed : List Nat) (nImg : Nat → Nat)
    (hp : processed.Nodup) : (runAssignedIds processed nImg).Nodup := by
  unfold runAssignedIds
  rw [List.nodup_flatMap]
  refine ⟨fun i _ => slideBlock_nodup i (nImg i), ?_⟩
  refine hp.imp ?_
  intro i j hne
  exact slideBlock_disjoint i j hne (nImg i) (nImg j)

/-- A staging step whose upload succeeds removes its temporary file:
starting from an empty disk it ends with an empty disk, the handle
appended and the call counted. -/
theorem stageOne_all_ok (oracle : Nat → Bool) (h : ∀ k, oracle k = true)
    (path : String) (s : StageState) (hd : s.disk = []) :
    stageOne oracle path s = .ok ⟨[], s.handles ++ [path], s.calls + 1⟩ := by
  unfold stageOne saveFile
  simp [hd, h]

/-- The per-image staging loop keeps the disk empty when every upload
succeeds. -/
theorem stageAll_all_ok (oracle : Nat → Bool) (h : ∀ k, oracle k = true) :
    ∀ (paths : List String) (s : StageState), s.disk = [] →
      ∃ s', stageAll oracle paths s = .ok s' ∧ s'.disk = [] := by
  intro paths
  induction paths with
  | nil => intro s hd; exact ⟨s, rfl, hd⟩
  | cons path rest ih =>
      intro s hd
      rw [show stageAll oracle (path :: rest) s
            = (match stageOne oracle path s with
               | .error e => .error e
               | .ok s1 => stageAll oracle rest s1) from rfl,
          stageOne_all_ok oracle h path s hd]
      exact ih _ rfl

/-- The combine block's staging keeps the disk empty when every upload
succeeds (including the zero-image `ValueError` path, which creates no
file). -/
theorem stageCombined_all_ok (oracle : Nat → Bool) (h : ∀ k, oracle k = true)
    (i nImgs : Nat) (s : StageState) (hd : s.disk = []) :
    (resultState (stageCombined oracle i nImgs s)).disk = [] := by
  unfold stageCombined
  by_cases h0 : nImgs = 0
  · rw [if_pos h0]
    exact hd
  · rw [if_neg h0]
    simp [saveFile, hd, h, resultState]

/-! ### Claims -/

/-- C5: labeling with labels disabled is the identity: the disabled
branch of `add_id_to_image` returns the caller's unit itself,
byte-identical, and performs no drawing on it. -/
theorem C5_label_disabled_identity (u : Img) (t : String) :
    add_id_to_image false u t = (u, u) := rfl

/-- C10: the plain variant's extraction (src/main.py) and the
snapshot-augmented variant's extraction (src/powerpoint_analyzer.py)
produce identical trimmed text and identical ordered image lists; the
analyzer variant adds exactly the slide snapshot as its third
component. -/
theorem C10_extraction_refinement (wE hE : Nat) (slide : List Shape) :
    extract_slide_content_analyzer wE hE slide
      = ((extract_slide_content_main slide).1,
         (extract_slide_content_main slide).2,
         generate_slide_snapshot wE hE slide) := by
  unfold extract_slide_content_analyzer extract_slide_content_main
  rw [extractLoop_eq]

/-- C2 (refuted as stated): packaging with combine=true and zero
processed images does not skip composite construction — the
`zip(*(i.size for i in processed_imgs))` unpacking raises `ValueError`,
so nothing at all is transmitted for the slide. -/
theorem C2_zero_images_combine_raises :
    packageSlide true [] snap0
      = .error "ValueError: not enough values to unpack (expected 2, got 0)" := rfl

/-- C3 (refuted as stated): on a slide with two pictures and
combine=true, the transmitted set is
`[composite, second labeled image, labeled snapshot]` — three images,
including an individual per-image unit — because the code keeps
`ai_files[-2:]` (the last per-image upload and the snapshot) alongside
the composite. -/
theorem C3_combine_keeps_last_image :
    packageSlide true [imgA, imgB] snap0
        = .ok [combinedImg [imgA, imgB], imgB, snap0] ∧
      (packageSlide true [imgA, imgB] snap0).map List.length = .ok 3 :=
  ⟨rfl, rfl⟩

/-- C1 (refuted as stated): on a 3-slide deck neither orchestrator
processes every slide — src/powerpoint_analyzer.py iterates the
hard-coded `range(2)` and src/main.py iterates `range(len - 1)`, so each
produces 2 result blocks instead of 3. -/
theorem C1_not_all_slides_processed :
    (runResults (processedSlidesAnalyzer 3) decRepr).length = 2 ∧
    (runResults (processedSlidesMain 3) decRepr).length = 2 ∧
    processedSlidesAnalyzer 3 ≠ List.range 3 ∧
    processedSlidesMain 3 ≠ List.range 3 := by
  decide

/-- C4 counterexample: `add_id_to_image` with labels enabled draws on
the very unit it is handed: on a 40 × 40 all-white unit the pixel at
(10, 10) of the caller's argument object is alpha-darkened by the label
background after the call, so the original buffer is not byte-for-byte
unchanged. -/
theorem C4_cex_label_mutates_argument :
    (add_id_to_image true u0 "IMG_1_1").2.pix 10 10 ≠ u0.pix 10 10 := by
  decide

/-- C4 (amended): the labeling step as the orchestrator invokes it —
`add_id_to_image(img.copy(), id_text)` — leaves the caller's retained
unit unchanged, because the drawing lands on the fresh copy;
`add_id_to_image` itself mutates the unit it is handed in place and
returns that same mutated unit. -/
theorem C4_amended_label_copy_discipline (b : Bool) (u : Img) (t : String) :
    (labelStep b u t).2 = u ∧
    (add_id_to_image true u t).2 = (add_id_to_image true u t).1 :=
  ⟨rfl, rfl⟩

/-- C6: for a non-empty list of labeled units the combine block
succeeds and yields a composite whose width is the sum of the units'
widths and whose height is the maximum of their heights, with each unit
pasted left-to-right at the cumulative x-offset of the preceding units'
widths, top-aligned at y = 0 (each in-bounds pixel of unit `k` appears
at column offset `sum of widths of units before k`). -/
theorem C6_composite_layout (imgs : List Img) (h : imgs ≠ []) :
    combineImages imgs = .ok (combinedImg imgs) ∧
    (combinedImg imgs).width = sumWidths imgs ∧
    (combinedImg imgs).height = maxHeight imgs ∧
    ∀ k dx dy : Nat, k < imgs.length →
      dx < (imgs.getD k defaultImg).width →
      dy < (imgs.getD k defaultImg).height →
      (combinedImg imgs).pix (sumWidths (imgs.take k) + dx) dy
        = (imgs.getD k defaultImg).pix dx dy := by
  refine ⟨?_, ?_, ?_, ?_⟩
  · cases imgs with
    | nil => exact absurd rfl h
    | cons a l => rfl
  · unfold combinedImg
    rw [pasteAll_width]
    rfl
  · unfold combinedImg
    rw [pasteAll_height]
    rfl
  · intro k dx dy hk hdx hdy
    have hb1 : sumWidths (imgs.take k) + (imgs.getD k defaultImg).width
        ≤ sumWidths imgs := sumWidths_take_getD imgs k hk
    have hb2 : (imgs.getD k defaultImg).height ≤ maxHeight imgs :=
      height_le_maxHeight imgs k hk
    have := pasteAll_pix imgs
      (imageNew (sumWidths imgs) (maxHeight imgs) black) 0 k dx dy hk hdx hdy
      (by show 0 + sumWidths (imgs.take k) + dx < sumWidths imgs; omega)
      (by show dy < maxHeight imgs; omega)
    unfold combinedImg
    rw [show sumWidths (imgs.take k) + dx
          = 0 + sumWidths (imgs.take k) + dx by omega]
    exact this

/-- Witness for C6 at the concrete two-unit list `l0c = [imgA, imgB]`:
the composite is 5 wide and 5 tall, and the pixel at the second unit's
offset is the second unit's pixel. -/
theorem C6_composite_layout_witness :
    l0c ≠ [] ∧
    (combinedImg l0c).width = sumWidths l0c ∧
    (combinedImg l0c).height = maxHeight l0c ∧
    (combinedImg l0c).pix (sumWidths (l0c.take 1) + 0) 1
      = (l0c.getD 1 defaultImg).pix 0 1 ∧
    sumWidths l0c = 5 ∧ maxHeight l0c = 5 := by
  have h : l0c ≠ [] := by
    unfold l0c
    exact List.cons_ne_nil _ _
  obtain ⟨-, h2, h3, h4⟩ := C6_composite_layout l0c h
  exact ⟨h, h2, h3, h4 1 0 1 (by decide) (by decide) (by decide),
    by decide, by decide⟩

/-- C7: identifiers are determined purely by (slide index, ordinal),
both rendered 1-based — the picture at 0-based ordinal k of 0-based
slide i gets `IMG_{i+1}_{k+1}` and slide i's snapshot loop assigns
exactly `snapshot_{i+1}` — and the identifiers assigned across a run's
processed slides are pairwise distinct. -/
theorem C7_identifier_scheme :
    (∀ i n k : Nat, k < n →
      (slideImageIds i n).getD k ""
        = "IMG_" ++ decRepr (i + 1) ++ "_" ++ decRepr (k + 1)) ∧
    (∀ i : Nat, slideSnapshotIds i = ["snapshot_" ++ decRepr (i + 1)]) ∧
    (∀ (processed : List Nat) (nImg : Nat → Nat), processed.Nodup →
      (runAssignedIds processed nImg).Nodup) :=
  ⟨slideImageIds_getD, fun i => rfl, runAssignedIds_nodup⟩

/-- A deck profile with two embedded pictures on every slide, used to
instantiate C7. -/
def twoPicturesEach : Nat → Nat := fun _ => 2

/-- Witness for C7 on a concrete two-slide run with two pictures per
slide. -/
theorem C7_identifier_scheme_witness :
    (slideImageIds 0 2).getD 1 "" = "IMG_" ++ decRepr 1 ++ "_" ++ decRepr 2 ∧
    slideSnapshotIds 0 = ["snapshot_" ++ decRepr 1] ∧
    (runAssignedIds [0, 1] twoPicturesEach).Nodup := by
  obtain ⟨h1, h2, h3⟩ := C7_identifier_scheme
  exact ⟨h1 0 2 1 (by decide), h2 0, h3 [0, 1] twoPicturesEach (by decide)⟩

/-- C8 counterexample: with one embedded picture and an upload call
that raises on the slide's first staging call, the slide's pipeline
ends (by propagating the exception) with the temporary PNG
`temp_image_1_1.png` still on disk — the temp file is not deleted on
the staging-failure exit path. -/
theorem C8_cex_failed_upload_leaves_file :
    stageSlide oracleFirstFails false 0 1 ⟨[], [], 0⟩
        = .error ⟨["temp_image_1_1.png"], [], 1⟩ ∧
      (resultState (stageSlide oracleFirstFails false 0 1 ⟨[], [], 0⟩)).disk
        ≠ [] := by
  refine ⟨rfl, ?_⟩
  decide

/-- C8 (amended): temporary PNGs are deleted immediately after their
staging call succeeds — when every upload of the slide succeeds the
pipeline ends with no temporary file on disk (on either packaging mode,
including the zero-image `ValueError` exit) — but a file whose own
staging upload raises is left on disk when the exception propagates. -/
theorem C8_amended_cleanup (oracle : Nat → Bool) :
    ((∀ k, oracle k = true) → ∀ (combine : Bool) (i nImgs : Nat),
      (resultState (stageSlide oracle combine i nImgs ⟨[], [], 0⟩)).disk = []) ∧
    (∀ (path : String) (s : StageState), oracle s.calls = false →
      path ∈ (resultState (stageOne oracle path s)).disk) := by
  constructor
  · intro h combine i nImgs
    unfold stageSlide
    obtain ⟨s1, hs1, hd1⟩ :=
      stageAll_all_ok oracle h (imgPaths i nImgs) ⟨[], [], 0⟩ rfl
    rw [hs1]
    dsimp only
    rw [stageOne_all_ok oracle h (snapshotId i 0 ++ ".png") s1 hd1]
    dsimp only
    by_cases hc : combine
    · rw [if_pos hc]
      exact stageCombined_all_ok oracle h i nImgs _ rfl
    · rw [if_neg hc]
      rfl
  · intro path s hfail
    unfold stageOne
    dsimp only
    rw [show (saveFile path s).calls = s.calls from rfl, hfail]
    simp only [Bool.false_eq_true, if_false]
    show path ∈ (saveFile path s).disk
    unfold saveFile
    by_cases hmem : path ∈ s.disk
    · simp [hmem]
    · simp [hmem]

/-- Witness for C8 (amended): a one-picture slide staged with an
always-succeeding upload ends with an empty disk, and the same slide's
first temp file survives when its upload raises. -/
theorem C8_amended_cleanup_witness :
    (resultState (stageSlide oracleOk true 0 1 ⟨[], [], 0⟩)).disk = [] ∧
    "temp_image_1_1.png"
      ∈ (resultState
          (stageOne oracleFirstFails "temp_image_1_1.png" ⟨[], [], 0⟩)).disk := by
  refine ⟨(C8_amended_cleanup oracleOk).1 (fun k => rfl) true 0 1, ?_⟩
  exact (C8_amended_cleanup oracleFirstFails).2 "temp_image_1_1.png" ⟨[], [], 0⟩ rfl

/-- C9: each slide's snapshot canvas is a white image whose pixel width
and height are the deck's declared slide width and height in inches,
multiplied by 96 and rounded down (integer truncation); the rendered
snapshot keeps exactly those dimensions. -/
theorem C9_snapshot_canvas_dims (wE hE : Nat) (slide : List Shape) :
    (generate_slide_snapshot wE hE slide).width = ⌊emuToInches wE * 96⌋₊ ∧
    (generate_slide_snapshot wE hE slide).height = ⌊emuToInches hE * 96⌋₊ ∧
    (∀ x y, (imageNew (emuToPx wE) (emuToPx hE) white).pix x y = white) := by
  refine ⟨?_, ?_, fun x y => rfl⟩
  · unfold generate_slide_snapshot
    rw [foldl_renderShape_width]
    exact emuToPx_floor wE
  · unfold generate_slide_snapshot
    rw [foldl_renderShape_height]
    exact emuToPx_floor hE

end PptToTxt
